import Mathlib

/-!
# Verification of the l4virtio net switch core

A shallow embedding, in Lean 4, of the switching fabric of the
l4virtio-net-switch repository: the MAC learning table (`mac_table.h`),
the per-port VLAN classifier and ingress/egress policy (`port.h`), the
forwarding decision (`switch.cc`), the parsed request view (`request.h`)
and the cross-queue transfer engine (`transfer.h`).  Machine integers are
modelled as `Nat` with explicit masking where overflow matters; fallible
code returns `Option`; C++ objects become explicit state records.
-/

set_option maxHeartbeats 1000000

/-! ## VLAN identifiers

Modelled from the spec: `vlan.h` is not under `src/`.  VLAN ids live in a
12-bit space with two reserved codepoints, `NATIVE` (untagged traffic)
and `TRUNK` (marker that never appears on the wire); valid
user-configurable ids are 1..4094. -/

def VLAN_ID_NATIVE : Nat := 0

def VLAN_ID_TRUNK : Nat := 0xfff

/-- Modelled from the spec: `vlan.h` is not under `src/`.  Valid
user-configurable VLAN ids are 1..4094. -/
def vlan_valid_id (id : Nat) : Bool :=
  decide (0 < id ∧ id < 0xfff)

/-! ## MAC addresses

Modelled from the spec: `mac_addr.h` is not under `src/`.  A MAC address
is a six-octet identifier with a distinguished unknown value (all-zero
sentinel) and a broadcast predicate (all-ones). -/

abbrev Mac : Type := Nat

def Mac.unknown : Mac := 0

def Mac.broadcast : Mac := 0xffffffffffff

def Mac.is_broadcast (m : Mac) : Bool := decide (m = Mac.broadcast)

def Mac.is_unknown (m : Mac) : Bool := decide (m = Mac.unknown)

/-! ## The MAC table (`Mac_table`, `src/unnamed/part_000`)

`Mac_table<Size>` keeps a `std::map` from MAC address to a pointer into a
fixed `std::array<Entry, Size>` of entries, plus a round-robin cursor
`_rr_index`.  Ports are identified by `Nat` ids (the C++ code stores
`Virtio_port *`; a null pointer becomes `none`). -/

/-- One slot of the backing array (`Mac_table::Entry`). -/
structure MacEntry where
  port : Option Nat
  addr : Mac
  deriving DecidableEq

/-- Default-constructed `Entry`: null port, unknown address. -/
def MacEntry.default : MacEntry := { port := none, addr := Mac.unknown }

/-- The MAC table: `_mac_table` (the lookup index, keyed by MAC, valued by
the slot the map entry points to), `_entries` (the backing array) and
`_rr_index`. -/
structure MacTable (N : Nat) where
  index : Mac → Option (Fin N)
  entries : Fin N → MacEntry
  rr : Fin N

/-- A freshly constructed `Mac_table`. -/
def MacTable.empty (N : Nat) [NeZero N] : MacTable N :=
  { index := fun _ => none
    entries := fun _ => MacEntry.default
    rr := ⟨0, Nat.pos_of_ne_zero (NeZero.ne N)⟩ }

/-- Advance the round-robin cursor: `_rr_index = (_rr_index + 1U) % Size`. -/
def rrNext {N : Nat} (r : Fin N) : Fin N :=
  ⟨(r.val + 1) % N, Nat.mod_lt _ (Nat.lt_of_le_of_lt (Nat.zero_le _) r.isLt)⟩

/-- Source `Mac_table::lookup`: follow the index; a found entry yields its port
pointer (which the C++ returns as-is, null or not). -/
def MacTable.lookup {N : Nat} (T : MacTable N) (dst : Mac) : Option Nat :=
  match T.index dst with
  | none => none
  | some j => (T.entries j).port

/-- Source `Mac_table::learn`.  `emplace` first tries to insert `src` pointing at
slot `_rr_index`; if `src` was already present only the port pointer of
the entry the map points to is updated.  Otherwise (fresh insertion) the
occupied slot at the cursor has its current MAC erased from the index,
the slot is overwritten, and the cursor advances.  Note the C++ order:
the insertion happens before the erase of the old address. -/
def MacTable.learn {N : Nat} (T : MacTable N) (src : Mac) (port : Nat) :
    MacTable N :=
  match T.index src with
  | some j =>
      { T with entries := fun i =>
          if i = j then { T.entries j with port := some port } else T.entries i }
  | none =>
      let rr := T.rr
      let old := T.entries rr
      let index1 : Mac → Option (Fin N) := fun m =>
        if m = src then some rr else T.index m
      let index2 : Mac → Option (Fin N) :=
        match old.port with
        | some _ => fun m => if m = old.addr then none else index1 m
        | none => index1
      { index := index2
        entries := fun i =>
          if i = rr then { port := some port, addr := src } else T.entries i
        rr := rrNext rr }

/-- Source `Mac_table::flush(port)`: every index entry whose slot references
`port` is erased, and the referenced slot is reset to the default entry.
(In the C++ the loop walks the map; an occupied slot is visited exactly
when its address is indexed to it, which the conjunction captures.) -/
def MacTable.flush {N : Nat} (T : MacTable N) (port : Nat) : MacTable N :=
  { index := fun m =>
      match T.index m with
      | none => none
      | some j => if (T.entries j).port = some port then none else some j
    entries := fun j =>
      if (T.entries j).port = some port ∧ T.index (T.entries j).addr = some j
      then MacEntry.default else T.entries j
    rr := T.rr }

/-- Steady-state well-formedness of the table: every occupied slot is
reachable from the index under its own address.  `learn` and `flush`
preserve this and the switch only ever mutates the table through them. -/
def MacTable.Wf {N : Nat} (T : MacTable N) : Prop :=
  ∀ j : Fin N, (T.entries j).port.isSome → T.index (T.entries j).addr = some j

instance {N : Nat} (T : MacTable N) : Decidable T.Wf :=
  inferInstanceAs (Decidable (∀ _, _))

/-- C2: `Mac_table::learn(mac, port)`; the two branches of the claim.  If
`mac` is already indexed, only that entry's port pointer changes and the
cursor stays put; if `mac` is fresh, the occupied cursor slot's MAC
leaves the index, the slot is overwritten with `(mac, port)`, the new
pair is indexed, and the cursor advances by one modulo `N`. -/
theorem C2_mac_table_learn {N : Nat} (T : MacTable N) (src : Mac)
    (port : Nat) (hwf : T.Wf) :
    (∀ j, T.index src = some j →
      (T.learn src port).rr = T.rr ∧
      (T.learn src port).index = T.index ∧
      (T.learn src port).entries j =
        { port := some port, addr := (T.entries j).addr } ∧
      (∀ i, i ≠ j → (T.learn src port).entries i = T.entries i)) ∧
    (T.index src = none →
      (T.learn src port).entries T.rr = { port := some port, addr := src } ∧
      (T.learn src port).index src = some T.rr ∧
      (T.learn src port).rr = rrNext T.rr ∧
      ((T.entries T.rr).port.isSome →
        (T.entries T.rr).addr ≠ src ∧
        (T.learn src port).index (T.entries T.rr).addr = none) ∧
      (∀ i, i ≠ T.rr → (T.learn src port).entries i = T.entries i)) := by
  constructor
  · intro j hj
    have hL : T.learn src port =
        { T with entries := fun i =>
            if i = j then { T.entries j with port := some port }
            else T.entries i } := by
      simp only [MacTable.learn, hj]
    refine ⟨by rw [hL], by rw [hL], ?_, ?_⟩
    · rw [hL]; simp
    · intro i hij
      rw [hL]; simp [hij]
  · intro hnone
    have hL : T.learn src port =
        { index :=
            match (T.entries T.rr).port with
            | some _ => fun m =>
                if m = (T.entries T.rr).addr then none
                else if m = src then some T.rr else T.index m
            | none => fun m => if m = src then some T.rr else T.index m
          entries := fun i =>
            if i = T.rr then { port := some port, addr := src }
            else T.entries i
          rr := rrNext T.rr } := by
      simp only [MacTable.learn, hnone]
    have hne : (T.entries T.rr).port.isSome → (T.entries T.rr).addr ≠ src := by
      intro hsome h
      have haddr := hwf T.rr hsome
      rw [h, hnone] at haddr
      exact Option.noConfusion haddr
    refine ⟨by rw [hL]; simp, ?_, by rw [hL], ?_, ?_⟩
    · rw [hL]
      cases hocc : (T.entries T.rr).port with
      | none => simp
      | some p =>
          have h5 : (T.entries T.rr).addr ≠ src := hne (by rw [hocc]; rfl)
          simp [Ne.symm h5]
    · intro hsome
      refine ⟨hne hsome, ?_⟩
      rw [hL]
      cases hocc : (T.entries T.rr).port with
      | none => rw [hocc] at hsome; simp at hsome
      | some p => simp
    · intro i hi
      rw [hL]; simp [hi]

/-- Witness for C2 at a concrete table: capacity 2, slot 0 occupied by
MAC 5 on port 7, cursor at 0; learning fresh MAC 9 on port 4. -/
def c2T : MacTable 2 :=
  { index := fun m => if m = (5 : Nat) then some ⟨0, by decide⟩ else none
    entries := fun j =>
      if j = (⟨0, by decide⟩ : Fin 2) then { port := some 7, addr := (5 : Nat) }
      else MacEntry.default
    rr := ⟨0, by decide⟩ }

theorem C2_mac_table_learn_witness :
    (c2T.learn (9 : Nat) 4).entries c2T.rr = { port := some 4, addr := (9 : Nat) } ∧
    (c2T.learn (9 : Nat) 4).index (9 : Nat) = some c2T.rr ∧
    (c2T.learn (9 : Nat) 4).rr = rrNext c2T.rr ∧
    ((c2T.entries c2T.rr).port.isSome →
      (c2T.entries c2T.rr).addr ≠ (9 : Nat) ∧
      (c2T.learn (9 : Nat) 4).index (c2T.entries c2T.rr).addr = none) ∧
    (∀ i, i ≠ c2T.rr → (c2T.learn (9 : Nat) 4).entries i = c2T.entries i) :=
  (C2_mac_table_learn c2T (9 : Nat) 4 (by decide)).2 (by decide)

/-! ## Round-robin eviction (C8)

Learning a list of fresh (MAC, port) pairs from the empty table: each
fresh learn lands in the slot at the cursor, evicting what was learned
`N` steps earlier. -/

/-- Unfolding of `learn` in the fresh-MAC branch. -/
theorem MacTable.learn_fresh {N : Nat} (T : MacTable N) (src : Mac)
    (port : Nat) (h : T.index src = none) :
    T.learn src port =
      { index :=
          match (T.entries T.rr).port with
          | some _ => fun m =>
              if m = (T.entries T.rr).addr then none
              else if m = src then some T.rr else T.index m
          | none => fun m => if m = src then some T.rr else T.index m
        entries := fun i =>
          if i = T.rr then { port := some port, addr := src }
          else T.entries i
        rr := rrNext T.rr } := by
  simp only [MacTable.learn, h]

/-- Fresh learn into an unoccupied cursor slot. -/
theorem MacTable.learn_fresh_unocc {N : Nat} (T : MacTable N) (src : Mac)
    (port : Nat) (h : T.index src = none)
    (hocc : (T.entries T.rr).port = none) :
    T.learn src port =
      { index := fun m => if m = src then some T.rr else T.index m
        entries := fun i =>
          if i = T.rr then { port := some port, addr := src }
          else T.entries i
        rr := rrNext T.rr } := by
  simp only [MacTable.learn, h, hocc]

/-- Fresh learn into an occupied cursor slot: the old MAC is erased from
the index (after the new one was inserted). -/
theorem MacTable.learn_fresh_occ {N : Nat} (T : MacTable N) (src : Mac)
    (port p : Nat) (h : T.index src = none)
    (hocc : (T.entries T.rr).port = some p) :
    T.learn src port =
      { index := fun m =>
          if m = (T.entries T.rr).addr then none
          else if m = src then some T.rr else T.index m
        entries := fun i =>
          if i = T.rr then { port := some port, addr := src }
          else T.entries i
        rr := rrNext T.rr } := by
  simp only [MacTable.learn, h, hocc]

/-- Learn a whole list of (MAC, port) pairs in order. -/
def MacTable.learnAll {N : Nat} (T : MacTable N) (l : List (Mac × Nat)) :
    MacTable N :=
  l.foldl (fun t x => t.learn x.1 x.2) T

/-- The `Nat` residue `i % N` as an element of `Fin N`. -/
def finMod (N : Nat) [NeZero N] (i : Nat) : Fin N :=
  ⟨i % N, Nat.mod_lt _ (Nat.pos_of_ne_zero (NeZero.ne N))⟩

theorem add_one_mod_eq (L N : Nat) : (L % N + 1) % N = (L + 1) % N := by
  conv_lhs => rw [Nat.add_mod]
  conv_rhs => rw [Nat.add_mod]
  rw [Nat.mod_mod_of_dvd L dvd_rfl]

theorem mod_ne_of_between {i L N : Nat} (h1 : i < L) (h2 : L < i + N) :
    i % N ≠ L % N := by
  intro h
  have h3 : N ∣ L - i := (Nat.modEq_iff_dvd' (Nat.le_of_lt h1)).1 h
  have h5 : 0 < L - i := by omega
  have h6 := Nat.le_of_dvd h5 h3
  omega

theorem nodup_getElem_ne {α : Type} {l : List α} (h : l.Nodup) {i j : Nat}
    (hi : i < l.length) (hj : j < l.length) (hij : i ≠ j) : l[i] ≠ l[j] := by
  rcases Nat.lt_or_ge i j with hlt | hge
  · exact (List.pairwise_iff_getElem.mp h) i j hi hj hlt
  · exact Ne.symm ((List.pairwise_iff_getElem.mp h) j i hj hi (by omega))

theorem nodup_fst_getElem_ne {l : List (Mac × Nat)}
    (h : (l.map Prod.fst).Nodup) {i j : Nat} (hi : i < l.length)
    (hj : j < l.length) (hij : i ≠ j) : l[i].1 ≠ l[j].1 := by
  have := nodup_getElem_ne h (i := i) (j := j) (by simpa) (by simpa) hij
  simpa using this

/-- Master invariant of `learnAll` from the empty table over a list of
pairwise-distinct MACs: the cursor equals the list length mod `N`, the
last `min L N` learns occupy their slots `i % N` and are indexed, all
earlier MACs are gone from the index, and untouched slots are default. -/
theorem learnAll_inv {N : Nat} [NeZero N] (l : List (Mac × Nat))
    (hnodup : (l.map Prod.fst).Nodup) :
    ((MacTable.empty N).learnAll l).rr.val = l.length % N ∧
    (∀ i (h : i < l.length), l.length ≤ i + N →
      ((MacTable.empty N).learnAll l).entries (finMod N i) =
        { port := some l[i].2, addr := l[i].1 }) ∧
    (∀ i (h : i < l.length), l.length ≤ i + N →
      ((MacTable.empty N).learnAll l).index l[i].1 = some (finMod N i)) ∧
    (∀ m : Mac, (∀ i (h : i < l.length), l.length ≤ i + N → l[i].1 ≠ m) →
      ((MacTable.empty N).learnAll l).index m = none) ∧
    (∀ j : Fin N, (∀ i (h : i < l.length), l.length ≤ i + N → i % N ≠ j.val) →
      ((MacTable.empty N).learnAll l).entries j = MacEntry.default) := by
  have hN : 0 < N := Nat.pos_of_ne_zero (NeZero.ne N)
  revert hnodup
  induction l using List.reverseRecOn with
  | nil =>
      intro _
      refine ⟨by simp [MacTable.learnAll, MacTable.empty], ?_, ?_, ?_, ?_⟩
      · intro i h; simp at h
      · intro i h; simp at h
      · intro m _; rfl
      · intro j _; rfl
  | append_singleton l x ih =>
      intro hnodup
      have hldup : (l.map Prod.fst).Nodup := by
        rw [List.map_append, List.nodup_append] at hnodup
        exact hnodup.1
      have hxfresh : x.1 ∉ l.map Prod.fst := by
        rw [List.map_append, List.nodup_append] at hnodup
        intro hmem
        exact hnodup.2.2 hmem (by simp)
      obtain ⟨inv1, inv2, inv3, inv4, inv5⟩ := ih hldup
      set T : MacTable N := (MacTable.empty N).learnAll l with hT
      have hlen : (l ++ [x]).length = l.length + 1 := by simp
      have hstep : (MacTable.empty N).learnAll (l ++ [x]) =
          T.learn x.1 x.2 := by
        rw [hT]
        simp [MacTable.learnAll, List.foldl_append]
      have hfresh : T.index x.1 = none := by
        apply inv4
        intro i h hlive hc
        exact hxfresh (hc ▸ List.mem_map_of_mem _ (List.getElem_mem h))
      have hrrval : T.rr.val = l.length % N := inv1
      have hlx : l.length < (l ++ [x]).length := by simp
      have hgetL : (l ++ [x])[l.length] = x := by simp
      have hgetlt : ∀ i (h2 : i < (l ++ [x]).length) (h : i < l.length),
          (l ++ [x])[i] = l[i] := by
        intro i h2 h
        rw [List.getElem_append_left h]
      rcases Nat.lt_or_ge l.length N with hLN | hLN
      · -- table not yet full: the cursor slot is unoccupied
        have hslot : T.entries T.rr = MacEntry.default := by
          apply inv5
          intro i h _
          rw [hrrval, Nat.mod_eq_of_lt (by omega : i < N),
            Nat.mod_eq_of_lt hLN]
          omega
        have hocc : (T.entries T.rr).port = none := by
          rw [hslot]; rfl
        rw [hstep, MacTable.learn_fresh_unocc _ _ _ hfresh hocc]
        refine ⟨?_, ?_, ?_, ?_, ?_⟩
        · show (rrNext T.rr).val = (l ++ [x]).length % N
          rw [hlen]
          show (T.rr.val + 1) % N = (l.length + 1) % N
          rw [hrrval]
          exact add_one_mod_eq _ _
        · intro i h hlive
          rw [hlen] at h hlive
          dsimp only
          rcases Nat.lt_or_ge i l.length with hilt | hige
          · have hne : finMod N i ≠ T.rr := by
              intro he
              have hv : i % N = l.length % N := by
                have hval := congrArg Fin.val he
                rw [hrrval] at hval
                exact hval
              exact mod_ne_of_between hilt (by omega) hv
            rw [hgetlt i (by omega) hilt, if_neg hne]
            exact inv2 i hilt (by omega)
          · have hiL : i = l.length := by omega
            subst hiL
            have he : finMod N l.length = T.rr := by
              apply Fin.ext
              rw [hrrval]
              rfl
            rw [hgetL, if_pos he]
        · intro i h hlive
          rw [hlen] at h hlive
          dsimp only
          rcases Nat.lt_or_ge i l.length with hilt | hige
          · have hnex : l[i].1 ≠ x.1 := by
              intro hc
              exact hxfresh (hc ▸ List.mem_map_of_mem _ (List.getElem_mem hilt))
            rw [hgetlt i (by omega) hilt, if_neg hnex, inv3 i hilt (by omega)]
          · have hiL : i = l.length := by omega
            subst hiL
            rw [hgetL, if_pos rfl]
            have he : T.rr = finMod N l.length := by
              apply Fin.ext
              rw [hrrval]
              rfl
            rw [he]
        · intro m hm
          dsimp only
          have hmx : m ≠ x.1 := by
            have h1 := hm l.length (by omega) (by omega)
            rw [hgetL] at h1
            exact fun hc => h1 hc.symm
          rw [if_neg hmx]
          apply inv4
          intro i h hlive
          have h2 := hm i (by omega) (by omega)
          rwa [hgetlt i (by omega) h] at h2
        · intro j hj
          dsimp only
          have hjL : l.length % N ≠ j.val := hj l.length (by omega) (by omega)
          have hne : j ≠ T.rr := by
            intro he
            exact hjL (by rw [← hrrval, he])
          rw [if_neg hne]
          apply inv5
          intro i h hlive
          exact hj i (by omega) (by omega)
      · -- table full: the cursor slot holds the entry learned N steps ago
        have hi0 : l.length - N < l.length := by omega
        have hmod0 : (l.length - N) % N = l.length % N := by
          conv_rhs => rw [show l.length = l.length - N + N by omega]
          rw [Nat.add_mod_right]
        have hrrFin : T.rr = finMod N (l.length - N) := by
          apply Fin.ext
          rw [hrrval]
          show l.length % N = (l.length - N) % N
          rw [hmod0]
        have hentry : T.entries (finMod N (l.length - N)) =
            { port := some (l[l.length - N]).2
              addr := (l[l.length - N]).1 } :=
          inv2 (l.length - N) hi0 (by omega)
        have hocc : (T.entries T.rr).port = some (l[l.length - N]).2 := by
          rw [hrrFin, hentry]
        have haddr : (T.entries T.rr).addr = (l[l.length - N]).1 := by
          rw [hrrFin, hentry]
        rw [hstep, MacTable.learn_fresh_occ _ _ _ _ hfresh hocc]
        refine ⟨?_, ?_, ?_, ?_, ?_⟩
        · show (rrNext T.rr).val = (l ++ [x]).length % N
          rw [hlen]
          show (T.rr.val + 1) % N = (l.length + 1) % N
          rw [hrrval]
          exact add_one_mod_eq _ _
        · intro i h hlive
          rw [hlen] at h hlive
          dsimp only
          rcases Nat.lt_or_ge i l.length with hilt | hige
          · have hne : finMod N i ≠ T.rr := by
              intro he
              have hv : i % N = l.length % N := by
                have hval := congrArg Fin.val he
                rw [hrrval] at hval
                exact hval
              exact mod_ne_of_between hilt (by omega) hv
            rw [hgetlt i (by omega) hilt, if_neg hne]
            exact inv2 i hilt (by omega)
          · have hiL : i = l.length := by omega
            subst hiL
            have he : finMod N l.length = T.rr := by
              apply Fin.ext
              rw [hrrval]
              rfl
            rw [hgetL, if_pos he]
        · intro i h hlive
          rw [hlen] at h hlive
          dsimp only
          rcases Nat.lt_or_ge i l.length with hilt | hige
          · have hne0 : l[i].1 ≠ (l[l.length - N]).1 :=
              nodup_fst_getElem_ne hldup hilt hi0 (by omega)
            have hnex : l[i].1 ≠ x.1 := by
              intro hc
              exact hxfresh (hc ▸ List.mem_map_of_mem _ (List.getElem_mem hilt))
            rw [hgetlt i (by omega) hilt, haddr, if_neg hne0, if_neg hnex,
              inv3 i hilt (by omega)]
          · have hiL : i = l.length := by omega
            subst hiL
            have hxne : x.1 ≠ (l[l.length - N]).1 := by
              intro hc
              exact hxfresh (hc ▸ List.mem_map_of_mem _ (List.getElem_mem hi0))
            rw [hgetL, haddr, if_neg hxne, if_pos rfl]
            have he : T.rr = finMod N l.length := by
              apply Fin.ext
              rw [hrrval]
              rfl
            rw [he]
        · intro m hm
          dsimp only
          have hmx : m ≠ x.1 := by
            have h1 := hm l.length (by omega) (by omega)
            rw [hgetL] at h1
            exact fun hc => h1 hc.symm
          rw [haddr]
          rcases eq_or_ne m (l[l.length - N]).1 with he | hne
          · rw [if_pos he]
          · rw [if_neg hne, if_neg hmx]
            apply inv4
            intro i h hlive
            rcases eq_or_ne i (l.length - N) with he2 | hine
            · subst he2
              exact fun hc => hne hc.symm
            · have h2 := hm i (by omega) (by omega)
              rwa [hgetlt i (by omega) h] at h2
        · intro j hj
          dsimp only
          have hjL : l.length % N ≠ j.val := hj l.length (by omega) (by omega)
          have hne : j ≠ T.rr := by
            intro he
            exact hjL (by rw [← hrrval, he])
          rw [if_neg hne]
          apply inv5
          intro i h hlive
          rcases eq_or_ne i (l.length - N) with he2 | hine
          · subst he2
            rw [hmod0]
            exact hjL
          · exact hj i (by omega) (by omega)

/-- C8: learning `N + k` distinct MACs (`k ≥ 1`, none learned twice) from
the empty capacity-`N` table leaves exactly the first `k` MACs absent and
the most recent `N` MACs present with their ports. -/
theorem C8_round_robin_eviction {N : Nat} [NeZero N] (k : Nat) (hk : 1 ≤ k)
    (l : List (Mac × Nat)) (hlen : l.length = N + k)
    (hnodup : (l.map Prod.fst).Nodup) :
    ∀ i (h : i < l.length),
      ((MacTable.empty N).learnAll l).lookup l[i].1 =
        if i < k then none else some l[i].2 := by
  obtain ⟨inv1, inv2, inv3, inv4, inv5⟩ := learnAll_inv (N := N) l hnodup
  intro i h
  rcases Nat.lt_or_ge i k with hik | hik
  · rw [if_pos hik]
    have hidx : ((MacTable.empty N).learnAll l).index l[i].1 = none := by
      apply inv4
      intro t ht hlive hc
      have htk : t ≠ i := by omega
      exact nodup_fst_getElem_ne hnodup ht h htk hc
    rw [MacTable.lookup, hidx]
  · rw [if_neg (by omega)]
    have hlive : l.length ≤ i + N := by omega
    have hidx := inv3 i h hlive
    have hent := inv2 i h hlive
    rw [MacTable.lookup, hidx]
    simp only [hent]

/-- Witness for C8: capacity 2, three distinct MACs learned; the first is
evicted, the last two are present. -/
theorem C8_round_robin_eviction_witness :
    ((MacTable.empty 2).learnAll [((1 : Mac), 10), ((2 : Mac), 20), ((3 : Mac), 30)]).lookup 1
        = none ∧
    ((MacTable.empty 2).learnAll [((1 : Mac), 10), ((2 : Mac), 20), ((3 : Mac), 30)]).lookup 3
        = some 30 := by
  have h := C8_round_robin_eviction (N := 2) 1 (by decide)
    [((1 : Mac), 10), ((2 : Mac), 20), ((3 : Mac), 30)] (by decide) (by decide)
  have h0 := h 0 (by decide)
  have h2 := h 2 (by decide)
  exact ⟨by simpa using h0, by simpa using h2⟩

/-! ## Ports and the VLAN classifier (`src/server/switch/port.h`)

A `Virtio_port` carries the VLAN mode (`_vlan_id`), the trunk Bloom
filter and authoritative VLAN-id set, and an optional MAC.  The rings and
IRQ plumbing live outside the model. -/

structure Virtio_port where
  vlan_id : Nat          -- l4_uint16_t _vlan_id
  bloom : Nat            -- l4_uint32_t _vlan_bloom_filter
  vlan_ids : List Nat    -- std::set<l4_uint16_t> _vlan_ids (as a membership list)
  mac : Option Mac       -- Mac_addr _mac (none = Addr_unknown)
  deriving DecidableEq

/-- Source `vlan_bloom_hash(vid) = 1UL << (vid & 31)`. -/
def vlan_bloom_hash (vid : Nat) : Nat := 2 ^ (vid % 32)

def Virtio_port.is_trunk (p : Virtio_port) : Bool :=
  decide (p.vlan_id = VLAN_ID_TRUNK)

def Virtio_port.is_native (p : Virtio_port) : Bool :=
  decide (p.vlan_id = VLAN_ID_NATIVE)

def Virtio_port.is_access (p : Virtio_port) : Bool :=
  !p.is_trunk && !p.is_native

/-- A freshly constructed port: `_vlan_id = VLAN_ID_NATIVE`, zero Bloom
filter, empty VLAN set, MAC as given (none = unknown). -/
def Virtio_port.mk_port (mac : Option Mac) : Virtio_port :=
  { vlan_id := VLAN_ID_NATIVE, bloom := 0, vlan_ids := [], mac := mac }

def Virtio_port.set_vlan_access (p : Virtio_port) (id : Nat) : Virtio_port :=
  { p with vlan_id := id, bloom := 0, vlan_ids := [] }

/-- Source `set_vlan_trunk(ids)`: Bloom filter is the or of the hashes; the
authoritative set holds the given ids. -/
def Virtio_port.set_vlan_trunk (p : Virtio_port) (ids : List Nat) : Virtio_port :=
  { p with vlan_id := VLAN_ID_TRUNK
           bloom := ids.foldl (fun f id => f ||| vlan_bloom_hash id) 0
           vlan_ids := ids }

/-- Source `set_monitor()`: trunk marker and zero Bloom filter.  Note that the
C++ does not touch `_vlan_ids` here (it is empty on a freshly
constructed monitor port). -/
def Virtio_port.set_monitor (p : Virtio_port) : Virtio_port :=
  { p with vlan_id := VLAN_ID_TRUNK, bloom := 0 }

/-- Source `match_vlan(id)`: native/access fast path, Bloom quick reject, then
the authoritative set. -/
def Virtio_port.match_vlan (p : Virtio_port) (id : Nat) : Bool :=
  if id = p.vlan_id then true
  else if p.bloom &&& vlan_bloom_hash id = 0 then false
  else decide (id ∈ p.vlan_ids)

/-! ## The parsed request view (`Virtio_net_request`, `src/unnamed/part_003`)

The request keeps the ring head and a cursor to the first byte of the
Ethernet frame (`_pkt`, already past the virtio-net header).  Bytes are
`Nat` masked to 8 bits on access. -/

structure Virtio_net_request where
  head : Nat        -- the ring head handle, used by finish()
  pkt : List Nat    -- frame bytes at the _pkt cursor
  deriving DecidableEq

/-- Byte `i` of the frame (uint8 read). -/
def Virtio_net_request.byte (r : Virtio_net_request) (i : Nat) : Nat :=
  r.pkt.getD i 0 % 256

/-- Load six consecutive octets as one MAC-address value. -/
def bytes_to_mac (bs : List Nat) : Mac :=
  bs.foldl (fun a b => a * 256 + b % 256) 0

/-- Source `dst_mac()`: first six octets, or the unknown sentinel. -/
def Virtio_net_request.dst_mac (r : Virtio_net_request) : Mac :=
  if 6 ≤ r.pkt.length then bytes_to_mac (r.pkt.take 6) else Mac.unknown

/-- Source `src_mac()`: octets 6..11, or the unknown sentinel. -/
def Virtio_net_request.src_mac (r : Virtio_net_request) : Mac :=
  if 12 ≤ r.pkt.length then bytes_to_mac ((r.pkt.drop 6).take 6) else Mac.unknown

/-- Source `has_vlan()`: true iff the frame is long enough and bytes 12,13 are
the 802.1Q TPID `0x81 0x00`. -/
def Virtio_net_request.has_vlan (r : Virtio_net_request) : Bool :=
  if r.pkt.length < 14 then false
  else decide (r.byte 12 = 0x81 ∧ r.byte 13 = 0x00)

/-- Source `vlan_id()`: the 12 low bits of the TCI, or `VLAN_ID_NATIVE` when the
frame is untagged or too short. -/
def Virtio_net_request.vlan_id (r : Virtio_net_request) : Nat :=
  if r.has_vlan = true ∧ 16 ≤ r.pkt.length then
    (r.byte 14 * 256 + r.byte 15) &&& 0xfff
  else VLAN_ID_NATIVE

/-- Source `Virtio_port::get_tx_request` given the parsed request pulled from
the transmit ring (`ret`): the VLAN ingress policy.  The second component
is the list of `finish(head, bytes)` events emitted on the source queue
during the call — a dropped request is destroyed at once and its
destructor runs `_queue->finish(_head, _dev, 0)`. -/
def Virtio_port.get_tx_request (p : Virtio_port)
    (ret : Option Virtio_net_request) :
    Option Virtio_net_request × List (Nat × Nat) :=
  match ret with
  | none => (none, [])
  | some r =>
      if p.is_trunk then
        if decide (r.vlan_id ∈ p.vlan_ids) then (some r, [])
        else (none, [(r.head, 0)])
      else if p.is_access && r.has_vlan then (none, [(r.head, 0)])
      else (some r, [])

/-- C5: ingress drops.  An Access port drops a tagged frame; a Trunk port
drops an untagged frame (its effective id `VLAN_ID_NATIVE` is never in a
validly configured set) and a tagged frame whose id is not in the set; in
each case the source head is finished with zero bytes written. -/
theorem C5_ingress_policy (p : Virtio_port) (r : Virtio_net_request)
    (hnative : VLAN_ID_NATIVE ∉ p.vlan_ids) :
    (p.is_access = true → r.has_vlan = true →
      p.get_tx_request (some r) = (none, [(r.head, 0)])) ∧
    (p.is_trunk = true → r.has_vlan = false →
      p.get_tx_request (some r) = (none, [(r.head, 0)])) ∧
    (p.is_trunk = true → r.vlan_id ∉ p.vlan_ids →
      p.get_tx_request (some r) = (none, [(r.head, 0)])) := by
  refine ⟨?_, ?_, ?_⟩
  · intro ha hv
    have ht : p.is_trunk = false := by
      unfold Virtio_port.is_access at ha
      cases h : p.is_trunk with
      | false => rfl
      | true => rw [h] at ha; simp at ha
    simp [Virtio_port.get_tx_request, ht, ha, hv]
  · intro ht hv
    have hid : r.vlan_id = VLAN_ID_NATIVE := by
      unfold Virtio_net_request.vlan_id
      rw [if_neg]
      intro hc
      rw [hv] at hc
      exact Bool.noConfusion hc.1
    simp [Virtio_port.get_tx_request, ht, hid, hnative]
  · intro ht hv
    simp [Virtio_port.get_tx_request, ht, hv]

/-- Witness for C5: an Access(10) port dropping a tagged frame, and a
Trunk({10}) port dropping an untagged frame. -/
theorem C5_ingress_policy_witness :
    (((Virtio_port.mk_port none).set_vlan_access 10).get_tx_request
        (some { head := 3, pkt := [0,0,0,0,0,0, 0,0,0,0,0,0, 0x81, 0x00, 0, 10] })
      = (none, [(3, 0)])) ∧
    (((Virtio_port.mk_port none).set_vlan_trunk [10]).get_tx_request
        (some { head := 4, pkt := [0,0,0,0,0,0, 0,0,0,0,0,0, 0x08, 0x00] })
      = (none, [(4, 0)])) := by
  constructor
  · exact (C5_ingress_policy ((Virtio_port.mk_port none).set_vlan_access 10)
      { head := 3, pkt := [0,0,0,0,0,0, 0,0,0,0,0,0, 0x81, 0x00, 0, 10] }
      (by decide)).1 (by decide) (by decide)
  · exact (C5_ingress_policy ((Virtio_port.mk_port none).set_vlan_trunk [10])
      { head := 4, pkt := [0,0,0,0,0,0, 0,0,0,0,0,0, 0x08, 0x00] }
      (by decide)).2.1 (by decide) (by decide)

/-! ## The egress VLAN mangle (`Virtio_port::handle_request`) -/

/-- The `Virtio_vlan_mangle` policy value chosen at forwarding time.
`add vid` splices a tag in, `remove` strips it, `nochange` copies
verbatim. -/
inductive Virtio_vlan_mangle where
  | nochange
  | add (vid : Nat)
  | remove
  deriving DecidableEq

/-- The mangle chosen by `Virtio_port::handle_request` on port `dst` for
a request arriving from `src_port` (port.h lines 242-262). -/
def Virtio_port.handle_request_mangle (dst src_port : Virtio_port) :
    Virtio_vlan_mangle :=
  if dst.is_trunk then
    if !src_port.is_trunk && !src_port.is_native then
      Virtio_vlan_mangle.add src_port.vlan_id
    else Virtio_vlan_mangle.nochange
  else if src_port.is_trunk then Virtio_vlan_mangle.remove
  else Virtio_vlan_mangle.nochange

/-- The mangle as the spec words it, case by case (refinement spec for
C6). -/
def mangle_spec (dst src_port : Virtio_port) : Virtio_vlan_mangle :=
  if dst.is_trunk && src_port.is_access then
    Virtio_vlan_mangle.add src_port.vlan_id
  else if dst.is_trunk && src_port.is_trunk then Virtio_vlan_mangle.nochange
  else if dst.is_trunk && src_port.is_native then Virtio_vlan_mangle.nochange
  else if !dst.is_trunk && src_port.is_trunk then Virtio_vlan_mangle.remove
  else Virtio_vlan_mangle.nochange

/-- C6: the mangle computed by `handle_request` agrees with the spec's
five-case table for every pair of port configurations. -/
theorem C6_handle_request_mangle (dst src_port : Virtio_port) :
    dst.handle_request_mangle src_port = mangle_spec dst src_port := by
  unfold Virtio_port.handle_request_mangle mangle_spec Virtio_port.is_access
  cases h1 : dst.is_trunk <;> cases h2 : src_port.is_trunk <;>
    cases h3 : src_port.is_native <;> simp

/-! ## The monitor port configuration (C9) -/

/-- C9 counterexample: after `set_monitor` on a fresh port, `match_vlan`
rejects the perfectly carryable VLAN id 10 (the Bloom filter is zero, so
everything except the `VLAN_ID_TRUNK` fast-path id is rejected); the
claim asserts it returns true for every id a frame can carry. -/
theorem C9_monitor_counterexample :
    vlan_valid_id 10 = true ∧
    ((Virtio_port.mk_port none).set_monitor).match_vlan 10 = false := by
  decide

/-- C9 amended: `set_monitor` indeed yields a Trunk port with empty VLAN
set and zero Bloom filter, but `match_vlan` then holds only for the
reserved id `VLAN_ID_TRUNK`; the monitor receives all traffic because
`handle_tx_queue` delivers to it unconditionally (modulo the filter
hook), never consulting `match_vlan`. -/
theorem C9_monitor_amended :
    ((Virtio_port.mk_port none).set_monitor).vlan_id = VLAN_ID_TRUNK ∧
    ((Virtio_port.mk_port none).set_monitor).bloom = 0 ∧
    ((Virtio_port.mk_port none).set_monitor).vlan_ids = [] ∧
    ∀ id : Nat, ((Virtio_port.mk_port none).set_monitor).match_vlan id =
      decide (id = VLAN_ID_TRUNK) := by
  refine ⟨rfl, rfl, rfl, ?_⟩
  intro id
  by_cases h : id = VLAN_ID_TRUNK <;>
    simp [Virtio_port.match_vlan, Virtio_port.set_monitor, Virtio_port.mk_port, h]

/-! ## The switch (`src/server/switch/switch.cc`)

`Virtio_switch` holds the port array (`_ports`, indexed up to
`_max_used`), an optional monitor port and the MAC table.  Ports are
identified by `Nat` ids; their VLAN configuration is given by an
environment `cfg : Nat → Virtio_port`.  The packet-filter hook
(`filter.h`, not under `src/`) is a parameter `filter`; it returns true
to reject a request from mirroring. -/

structure Virtio_switch (N : Nat) where
  ports : List (Option Nat)   -- Virtio_port **_ports (none = empty slot)
  max_used : Nat              -- unsigned _max_used
  monitor : Option Nat        -- Virtio_port *_monitor
  mac_table : MacTable N      -- Mac_table<> _mac_table

/-- The flood loop of `handle_tx_queue`:
`for (idx = 0; idx < _max_used && _ports[idx]; ++idx)` — note that the
iteration stops at the first empty slot — delivering to every visited
port other than the source that matches the VLAN. -/
def flood_targets {N : Nat} (cfg : Nat → Virtio_port) (sw : Virtio_switch N)
    (port : Nat) (vlan : Nat) : List Nat :=
  (((sw.ports.take sw.max_used).takeWhile Option.isSome).filterMap id).filter
    (fun t => decide (t ≠ port) && (cfg t).match_vlan vlan)

/-- The mirror copy: `if (_monitor && !filter_request(request)) _monitor->handle_request(...)`. -/
def monitor_copy {N : Nat} (filter : Virtio_net_request → Bool)
    (sw : Virtio_switch N) (r : Virtio_net_request) : List Nat :=
  match sw.monitor with
  | some m => if filter r then [] else [m]
  | none => []

/-- Source `Virtio_switch::handle_tx_queue` on one pulled request: learn the
source MAC, compute the effective VLAN id, then forward — unicast to a
MAC-table hit (suppressing the source port and mirroring to the
monitor), or flood on broadcast/miss.  Returns the new switch state and
the list of ports `handle_request` is invoked on, in order. -/
def Virtio_switch.handle_tx_queue {N : Nat} (cfg : Nat → Virtio_port)
    (filter : Virtio_net_request → Bool) (sw : Virtio_switch N)
    (port : Nat) (req : Option Virtio_net_request) :
    Virtio_switch N × List Nat :=
  match req with
  | none => (sw, [])
  | some r =>
      let tbl := sw.mac_table.learn r.src_mac port
      let sw1 : Virtio_switch N := { sw with mac_table := tbl }
      let vlan := if r.has_vlan then r.vlan_id else (cfg port).vlan_id
      if r.dst_mac.is_broadcast then
        (sw1, flood_targets cfg sw port vlan ++ monitor_copy filter sw r)
      else
        match tbl.lookup r.dst_mac with
        | some target =>
            if target ≠ port ∧ (cfg target).match_vlan vlan then
              (sw1, [target] ++ monitor_copy filter sw r)
            else (sw1, [])
        | none => (sw1, flood_targets cfg sw port vlan ++ monitor_copy filter sw r)

theorem flood_targets_mem {N : Nat} (cfg : Nat → Virtio_port)
    (sw : Virtio_switch N) (port vlan t : Nat) :
    t ∈ flood_targets cfg sw port vlan ↔
      some t ∈ (sw.ports.take sw.max_used).takeWhile Option.isSome ∧
      t ≠ port ∧ (cfg t).match_vlan vlan = true := by
  unfold flood_targets
  rw [List.mem_filter, List.mem_filterMap]
  constructor
  · rintro ⟨⟨a, ha, hid⟩, hpred⟩
    simp only [id] at hid
    subst hid
    simp only [Bool.and_eq_true, decide_eq_true_eq] at hpred
    exact ⟨ha, hpred.1, hpred.2⟩
  · rintro ⟨hmem, hne, hmatch⟩
    refine ⟨⟨some t, hmem, rfl⟩, ?_⟩
    simp only [Bool.and_eq_true, decide_eq_true_eq]
    exact ⟨hne, hmatch⟩

theorem monitor_copy_mem {N : Nat} {filter : Virtio_net_request → Bool}
    {sw : Virtio_switch N} {r : Virtio_net_request} {t : Nat}
    (hm : t ∈ monitor_copy filter sw r) : sw.monitor = some t := by
  unfold monitor_copy at hm
  cases h : sw.monitor with
  | none => rw [h] at hm; simp at hm
  | some m =>
      rw [h] at hm
      by_cases hf : filter r = true
      · simp [hf] at hm
      · simp [hf] at hm
        rw [hm]

/-- C7: self-loop freedom.  A frame pulled from `port` is never handed
back to `port`, neither on the unicast path (even when the lookup
resolves to `port` itself) nor on the flood path, provided `port` is not
the monitor (the monitor is not a switched port and never sources the
frames handled here). -/
theorem C7_no_self_loop {N : Nat} (cfg : Nat → Virtio_port)
    (filter : Virtio_net_request → Bool) (sw : Virtio_switch N)
    (port : Nat) (req : Option Virtio_net_request)
    (hmon : sw.monitor ≠ some port) :
    port ∉ (Virtio_switch.handle_tx_queue cfg filter sw port req).2 := by
  intro hmem
  cases req with
  | none => simp [Virtio_switch.handle_tx_queue] at hmem
  | some r =>
      unfold Virtio_switch.handle_tx_queue at hmem
      dsimp only at hmem
      generalize hvl :
        (if r.has_vlan = true then r.vlan_id else (cfg port).vlan_id) = vl
        at hmem
      split at hmem
      · rcases List.mem_append.mp hmem with hf | hm
        · exact ((flood_targets_mem cfg sw port vl port).1 hf).2.1 rfl
        · exact hmon (monitor_copy_mem hm)
      · split at hmem
        · split at hmem
          · rename_i target heq hcond
            rcases List.mem_cons.mp hmem with hf | hm
            · exact hcond.1 hf.symm
            · exact hmon (monitor_copy_mem hm)
          · simp at hmem
        · rcases List.mem_append.mp hmem with hf | hm
          · exact ((flood_targets_mem cfg sw port vl port).1 hf).2.1 rfl
          · exact hmon (monitor_copy_mem hm)

/-- Witness for C7: a concrete broadcast on a two-port switch never
returns to the source port. -/
theorem C7_no_self_loop_witness :
    (1 : Nat) ∉ (Virtio_switch.handle_tx_queue (fun _ => Virtio_port.mk_port none)
      (fun _ => false)
      { ports := [some 1, some 2], max_used := 2, monitor := none
        mac_table := MacTable.empty 4 }
      1
      (some { head := 0
              pkt := [255,255,255,255,255,255, 2,0,0,0,0,1, 8,0] })).2 :=
  C7_no_self_loop _ _ _ 1 _ (by decide)

/-- C10: a unicast frame whose MAC-table hit is the source port itself,
or fails the VLAN match, is delivered nowhere at all — not even to the
monitor — and the source MAC is still learned. -/
theorem C10_suppressed_unicast_not_mirrored {N : Nat}
    (cfg : Nat → Virtio_port) (filter : Virtio_net_request → Bool)
    (sw : Virtio_switch N) (port : Nat) (r : Virtio_net_request) (t : Nat)
    (hb : r.dst_mac.is_broadcast = false)
    (hlookup : (sw.mac_table.learn r.src_mac port).lookup r.dst_mac = some t)
    (hsupp : t = port ∨
      (cfg t).match_vlan
        (if r.has_vlan then r.vlan_id else (cfg port).vlan_id) = false) :
    Virtio_switch.handle_tx_queue cfg filter sw port (some r) =
      ({ sw with mac_table := sw.mac_table.learn r.src_mac port }, []) := by
  unfold Virtio_switch.handle_tx_queue
  dsimp only
  rw [hb]
  simp only [Bool.false_eq_true, if_false, hlookup]
  rw [if_neg]
  rintro ⟨h1, h2⟩
  rcases hsupp with he | hf
  · exact h1 he
  · rw [hf] at h2
    exact Bool.noConfusion h2

/-- Witness for C10: port 1 sends a unicast to a MAC the table resolves
to port 1 itself; nothing is delivered although a monitor exists and the
filter accepts. -/
theorem C10_suppressed_unicast_witness :
    Virtio_switch.handle_tx_queue (fun _ => Virtio_port.mk_port none)
      (fun _ => false)
      { ports := [some 1, some 2], max_used := 2, monitor := some 9
        mac_table := MacTable.empty 4 }
      1
      (some { head := 0
              pkt := [2,0,0,0,0,1, 2,0,0,0,0,1, 8,0] }) =
    ({ ports := [some 1, some 2], max_used := 2, monitor := some 9
       mac_table := (MacTable.empty 4).learn
         (Virtio_net_request.src_mac
           { head := 0, pkt := [2,0,0,0,0,1, 2,0,0,0,0,1, 8,0] }) 1 }, []) := by
  apply C10_suppressed_unicast_not_mirrored
  · decide
  · show ((MacTable.empty 4).learn
      (Virtio_net_request.src_mac
        { head := 0, pkt := [2,0,0,0,0,1, 2,0,0,0,0,1, 8,0] }) 1).lookup
      (Virtio_net_request.dst_mac
        { head := 0, pkt := [2,0,0,0,0,1, 2,0,0,0,0,1, 8,0] }) = some 1
    decide
  · exact Or.inl rfl

/-! ## Port liveness scan (`Virtio_switch::check_ports`) and C1

`check_ports` nulls the slot of every dead port, decrements `_max_used`
only when the dead port sat in the last used slot, and flushes the MAC
table.  The scan is modelled with the port-liveness test
(`obj_cap().validate()`) as a predicate `alive`; the loop re-reads
`_max_used` each iteration, and the index grows by one per step, so the
initial `_max_used` bounds the number of iterations (the structural
fuel). -/

def Virtio_switch.check_ports_go {N : Nat} (alive : Nat → Bool) :
    Nat → Nat → Virtio_switch N → Virtio_switch N
  | 0, _, sw => sw
  | fuel+1, idx, sw =>
      if idx < sw.max_used then
        Virtio_switch.check_ports_go alive fuel (idx+1)
          (match sw.ports.getD idx none with
           | some p =>
               if alive p then sw
               else
                 { sw with
                     ports := sw.ports.set idx none
                     max_used := if idx = sw.max_used - 1
                                 then sw.max_used - 1 else sw.max_used
                     mac_table := sw.mac_table.flush p }
           | none => sw)
      else sw

/-- Source `Virtio_switch::check_ports`: scan the port array, then the monitor
slot. -/
def Virtio_switch.check_ports {N : Nat} (alive : Nat → Bool)
    (sw : Virtio_switch N) : Virtio_switch N :=
  let sw1 := Virtio_switch.check_ports_go alive sw.max_used 0 sw
  { sw1 with monitor :=
      match sw1.monitor with
      | some m => if alive m then some m else none
      | none => none }

/-- Concrete scenario for C1: three native ports in slots 0..2. -/
def c1sw0 : Virtio_switch 4 :=
  { ports := [some 1, some 2, some 3, none], max_used := 3, monitor := none
    mac_table := MacTable.empty 4 }

def c1cfg : Nat → Virtio_port := fun _ => Virtio_port.mk_port none

/-- The client on port 2 has gone. -/
def c1alive : Nat → Bool := fun p => decide (p ≠ 2)

/-- A broadcast frame from port 1 (dst ff:ff:ff:ff:ff:ff). -/
def c1req : Virtio_net_request :=
  { head := 7, pkt := [255,255,255,255,255,255, 2,0,0,0,0,1, 8,0] }

/-- C1 (failing input): after the middle port dies, `check_ports` leaves
a hole at slot 1 with `_max_used` still 3; port 3 remains registered in
slot 2, differs from the source and matches the VLAN, yet the broadcast
flood loop (`idx < _max_used && _ports[idx]`) stops at the hole and
delivers to nobody, contradicting the claim that every registered
matching port receives the frame. -/
theorem C1_flood_stops_at_hole :
    (Virtio_switch.check_ports c1alive c1sw0).ports =
        [some 1, none, some 3, none] ∧
    (Virtio_switch.check_ports c1alive c1sw0).max_used = 3 ∧
    (Virtio_switch.check_ports c1alive c1sw0).monitor = none ∧
    c1req.dst_mac.is_broadcast = true ∧
    (c1cfg 3).match_vlan
      (if c1req.has_vlan then c1req.vlan_id else (c1cfg 1).vlan_id) = true ∧
    (Virtio_switch.handle_tx_queue c1cfg (fun _ => false)
        (Virtio_switch.check_ports c1alive c1sw0) 1 (some c1req)).2 = [] := by
  decide

/-! ## The transfer engine (`Virtio_net_transfer::transfer`,
`src/server/switch/transfer.h`)

One-shot copy of a parsed request into one destination receive queue.
Descriptors are byte counts (a malformed one raises `Bad_descriptor`
when loaded); the request-processor interface (`l4virtio`, outside this
repository) is modelled from the spec: `start` loads the first
descriptor of a chain, `next` advances to the following descriptor of
the chain and returns false at its end. -/

/-- A buffer descriptor: its byte size, or malformed. -/
inductive Desc where
  | ok (size : Nat)
  | bad
  deriving DecidableEq

/-- A descriptor chain: at least one descriptor. -/
structure Chain where
  first : Desc
  rest : List Desc
  deriving DecidableEq

/-- The destination receive virtqueue: `ready()`, the chains on the
available ring, and the cursor of the next available one.  `next_avail`
hands out chain `pos` (its index is the head handle) and advances;
`rewind_avail(h)` moves the cursor back to `h`. -/
structure DstQueue where
  ready : Bool
  chains : List Chain
  pos : Nat
  deriving DecidableEq

/-- Source `sizeof(Virtio_net::Hdr)`: flags u8, gso_type u8, hdr_len u16,
gso_size u16, csum_start u16, csum_offset u16, num_buffers u16. -/
def virtio_net_hdr_size : Nat := 12

/-- Modelled from the spec: `Virtio_vlan_mangle`'s copy state (`vlan.h`
is not under `src/`).  `copied` is the tiny counter of frame bytes
processed so far that locates the 4-byte splice point (offset 12, after
the two MAC addresses) across arbitrary buffer boundaries. -/
structure MangleState where
  op : Virtio_vlan_mangle
  copied : Nat
  deriving DecidableEq

/-- Modelled from the spec: `Virtio_vlan_mangle::copy_pkt` (`vlan.h` is
not under `src/`), on byte counts.  Copies from the source buffer into
the destination buffer until one runs out; at offsets 12..15 `add`
emits the four synthetic tag octets (consuming no source byte) and
`remove` skips four source octets (emitting nothing).  Returns (bytes
written, new state, source bytes left, destination bytes left); the
fuel `src + dst` bounds the steps. -/
def copy_pkt_go : Nat → MangleState → Nat → Nat →
    Nat × MangleState × Nat × Nat
  | 0, m, src, dst => (0, m, src, dst)
  | fuel+1, m, src, dst =>
      if dst = 0 then (0, m, src, dst)
      else
        match m.op with
        | Virtio_vlan_mangle.add _ =>
            if 12 ≤ m.copied ∧ m.copied < 16 then
              let r := copy_pkt_go fuel ⟨m.op, m.copied + 1⟩ src (dst - 1)
              (r.1 + 1, r.2)
            else if src = 0 then (0, m, src, dst)
            else
              let r := copy_pkt_go fuel ⟨m.op, m.copied + 1⟩ (src - 1) (dst - 1)
              (r.1 + 1, r.2)
        | Virtio_vlan_mangle.remove =>
            if src = 0 then (0, m, src, dst)
            else if 12 ≤ m.copied ∧ m.copied < 16 then
              copy_pkt_go fuel ⟨m.op, m.copied + 1⟩ (src - 1) dst
            else
              let r := copy_pkt_go fuel ⟨m.op, m.copied + 1⟩ (src - 1) (dst - 1)
              (r.1 + 1, r.2)
        | Virtio_vlan_mangle.nochange =>
            if src = 0 then (0, m, src, dst)
            else
              let r := copy_pkt_go fuel ⟨m.op, m.copied + 1⟩ (src - 1) (dst - 1)
              (r.1 + 1, r.2)

def copy_pkt (m : MangleState) (src dst : Nat) : Nat × MangleState × Nat × Nat :=
  copy_pkt_go (src + dst) m src dst

/-- Terminal states of one transfer (plus the internal markers for the
two exceptions that propagate out of `transfer`, and for fuel
exhaustion, which is unreachable from `transfer`). -/
inductive TResult where
  | delivered
  | dropped
  | exception
  | src_bad
  | hdr_too_small
  | out_of_fuel
  deriving DecidableEq

/-- The local state of `Virtio_net_transfer::transfer`: the private
source cursor (`src`, plus the source descriptors still to fetch), the
destination queue view, the current destination head and cursor, the
header/total/merged bookkeeping and the mangle. -/
structure TransferSt where
  srcCur : Nat               -- src.left
  srcRest : List Desc        -- descriptors the source request processor will yield
  ready : Bool               -- dst_queue->ready()
  chains : List Chain        -- the avail ring content of the dst queue
  pos : Nat                  -- the avail cursor of the dst queue
  head : Option Nat          -- dst_head (chain index, none = invalid)
  dstCur : Nat               -- dst.left
  dstRest : List Desc        -- remaining descriptors of the current dst chain
  hdrSet : Bool              -- dst_header != nullptr
  total : Nat                -- total
  numMerged : Nat            -- num_merged
  consumed : List (Nat × Nat) -- consumed: (head, bytes) per retired chain
  mangle : MangleState
  deriving DecidableEq

/-- The observable outcome of one transfer: result, the final avail
cursor of the destination queue, the `finish` events on the destination
queue (each a list of (head, length) used entries), the value written
into the destination header's `num_buffers`, and whether the
destination device was flagged in error. -/
structure TransferOut where
  result : TResult
  pos : Nat
  finishes : List (List (Option Nat × Nat))
  numBuffers : Option Nat
  dstError : Bool
  deriving DecidableEq

/-- Source-exhaustion epilogue of `transfer` (transfer.h lines 243-267):
never started → Dropped; single chain → `finish(dst_head, total)` with
`num_buffers = 1`; merged → append the current chain to `consumed` and
finish the whole sequence with `num_buffers = num_merged`. -/
def transfer_finalize (s : TransferSt) : TransferOut :=
  if s.hdrSet = false then
    { result := TResult.dropped, pos := s.pos, finishes := []
      numBuffers := none, dstError := false }
  else if s.consumed = [] then
    { result := TResult.delivered, pos := s.pos
      finishes := [[(s.head, s.total)]]
      numBuffers := some 1, dstError := false }
  else
    { result := TResult.delivered, pos := s.pos
      finishes := [(s.consumed.map (fun e => (some e.1, e.2))) ++ [(s.head, s.total)]]
      numBuffers := some s.numMerged, dstError := false }

/-- The catch block for a source `Bad_descriptor` (transfer.h lines
96-108): rewind the destination to before the first chain of this
transfer (or to the current head when nothing was retired yet), then
rethrow. -/
def transfer_src_bad (s : TransferSt) : TransferOut :=
  { result := TResult.src_bad
    pos :=
      if s.consumed ≠ [] then (s.consumed.headD (0, 0)).1
      else match s.head with
           | some h => h
           | none => s.pos
    finishes := [], numBuffers := none, dstError := false }

/-- Steps 3-4 of one loop iteration (the `dst_req_proc.next` advance and
the copy-or-retire decision); `h` is the current head (`s.head = some h`). -/
def transfer_copy (s : TransferSt) (h : Nat) (has_next : Bool) :
    TransferSt ⊕ TransferOut :=
  if s.dstCur ≠ 0 ∨ has_next = true then
    Sum.inl { s with
        total := s.total + (copy_pkt s.mangle s.srcCur s.dstCur).1
        mangle := (copy_pkt s.mangle s.srcCur s.dstCur).2.1
        srcCur := (copy_pkt s.mangle s.srcCur s.dstCur).2.2.1
        dstCur := (copy_pkt s.mangle s.srcCur s.dstCur).2.2.2 }
  else
    Sum.inl { s with
        consumed := s.consumed ++ [(h, s.total)]
        total := 0
        head := none }

def transfer_dst_next (s : TransferSt) (h : Nat) : TransferSt ⊕ TransferOut :=
  match s.dstRest with
  | Desc.bad :: _ =>
      Sum.inr { result := TResult.exception, pos := s.pos, finishes := []
                numBuffers := none, dstError := true }
  | Desc.ok n :: rest =>
      transfer_copy { s with dstCur := n, dstRest := rest } h true
  | [] => transfer_copy s h false

/-- Step 2: ensure a current destination chain (transfer.h lines
114-201): pull the next available head, start it (flagging the device on
a bad descriptor), copy the virtio-net header into the very first chain,
and count the merged chain. -/
def transfer_acquire (s : TransferSt) : TransferSt ⊕ TransferOut :=
  match s.head with
  | some h => transfer_dst_next s h
  | none =>
      if s.ready = false then
        Sum.inr { result := TResult.dropped, pos := s.pos, finishes := []
                  numBuffers := none, dstError := false }
      else
        match s.chains[s.pos]? with
        | none =>
            Sum.inr { result := TResult.dropped
                      pos := if s.consumed ≠ [] then (s.consumed.headD (0, 0)).1
                             else s.pos
                      finishes := [], numBuffers := none, dstError := false }
        | some ch =>
            match ch.first with
            | Desc.bad =>
                Sum.inr { result := TResult.exception, pos := s.pos + 1
                          finishes := [], numBuffers := none, dstError := true }
            | Desc.ok n0 =>
                if s.hdrSet = false then
                  if n0 < virtio_net_hdr_size then
                    Sum.inr { result := TResult.hdr_too_small, pos := s.pos + 1
                              finishes := [], numBuffers := none
                              dstError := false }
                  else
                    transfer_dst_next
                      { s with
                          pos := s.pos + 1, head := some s.pos
                          dstCur := n0 - virtio_net_hdr_size
                          dstRest := ch.rest, hdrSet := true
                          total := virtio_net_hdr_size
                          numMerged := s.numMerged + 1 } s.pos
                else
                  transfer_dst_next
                    { s with
                        pos := s.pos + 1, head := some s.pos
                        dstCur := n0, dstRest := ch.rest
                        numMerged := s.numMerged + 1 } s.pos

/-- One iteration of the `for (;;)` loop: step 1 (advance the source
cursor, break on exhaustion, rewind and rethrow on a bad source
descriptor), then steps 2-4. -/
def transfer_step (s : TransferSt) : TransferSt ⊕ TransferOut :=
  if s.srcCur = 0 then
    match s.srcRest with
    | [] => Sum.inr (transfer_finalize s)
    | Desc.bad :: _ => Sum.inr (transfer_src_bad s)
    | Desc.ok n :: rest =>
        transfer_acquire { s with srcCur := n, srcRest := rest }
  else transfer_acquire s

def transfer_run : Nat → TransferSt → TransferOut
  | 0, _ => { result := TResult.out_of_fuel, pos := 0, finishes := []
              numBuffers := none, dstError := false }
  | fuel+1, s =>
      match transfer_step s with
      | Sum.inr out => out
      | Sum.inl s2 => transfer_run fuel s2

def descWeight : Desc → Nat
  | Desc.ok n => n + 1
  | Desc.bad => 1

def chainWeight (c : Chain) : Nat :=
  descWeight c.first + (c.rest.map descWeight).sum + 1

/-- Every loop iteration strictly decreases this weight, which therefore
bounds the number of iterations. -/
def transfer_measure (s : TransferSt) : Nat :=
  s.srcCur + (s.srcRest.map descWeight).sum
  + s.dstCur + (s.dstRest.map descWeight).sum
  + ((s.chains.drop s.pos).map chainWeight).sum
  + (if s.head.isSome then 1 else 0)

/-- Source `Virtio_net_transfer::transfer(request, dst_dev, dst_queue, mangle)`.
The request contributes its first-buffer cursor (`srcCur` bytes left)
and the descriptors the source request processor has still to fetch. -/
def Virtio_net_transfer.transfer (srcCur : Nat) (srcRest : List Desc)
    (q : DstQueue) (m : Virtio_vlan_mangle) : TransferOut :=
  transfer_run
    (transfer_measure
      { srcCur := srcCur, srcRest := srcRest, ready := q.ready
        chains := q.chains, pos := q.pos, head := none, dstCur := 0
        dstRest := [], hdrSet := false, total := 0, numMerged := 0
        consumed := [], mangle := ⟨m, 0⟩ } + 1)
    { srcCur := srcCur, srcRest := srcRest, ready := q.ready
      chains := q.chains, pos := q.pos, head := none, dstCur := 0
      dstRest := [], hdrSet := false, total := 0, numMerged := 0
      consumed := [], mangle := ⟨m, 0⟩ }

/-! ### Termination of the transfer loop -/

theorem copy_pkt_go_le : ∀ (fuel : Nat) (m : MangleState) (src dst : Nat),
    (copy_pkt_go fuel m src dst).2.2.1 ≤ src ∧
    (copy_pkt_go fuel m src dst).2.2.2 ≤ dst := by
  intro fuel
  induction fuel with
  | zero => intro m src dst; exact ⟨Nat.le_refl _, Nat.le_refl _⟩
  | succ fuel ih =>
      intro m src dst
      simp only [copy_pkt_go]
      by_cases hd : dst = 0
      · simp [hd]
      · rw [if_neg hd]
        cases hop : m.op with
        | add vid =>
            dsimp only
            by_cases hw : 12 ≤ m.copied ∧ m.copied < 16
            · rw [if_pos hw]
              obtain ⟨h1, h2⟩ := ih ⟨Virtio_vlan_mangle.add vid, m.copied + 1⟩ src (dst - 1)
              dsimp only
              exact ⟨h1, by omega⟩
            · rw [if_neg hw]
              by_cases hs : src = 0
              · simp [hs]
              · rw [if_neg hs]
                obtain ⟨h1, h2⟩ := ih ⟨Virtio_vlan_mangle.add vid, m.copied + 1⟩ (src - 1) (dst - 1)
                dsimp only
                exact ⟨by omega, by omega⟩
        | remove =>
            dsimp only
            by_cases hs : src = 0
            · simp [hs]
            · rw [if_neg hs]
              by_cases hw : 12 ≤ m.copied ∧ m.copied < 16
              · rw [if_pos hw]
                obtain ⟨h1, h2⟩ := ih ⟨Virtio_vlan_mangle.remove, m.copied + 1⟩ (src - 1) dst
                exact ⟨by omega, h2⟩
              · rw [if_neg hw]
                obtain ⟨h1, h2⟩ := ih ⟨Virtio_vlan_mangle.remove, m.copied + 1⟩ (src - 1) (dst - 1)
                dsimp only
                exact ⟨by omega, by omega⟩
        | nochange =>
            dsimp only
            by_cases hs : src = 0
            · simp [hs]
            · rw [if_neg hs]
              obtain ⟨h1, h2⟩ := ih ⟨Virtio_vlan_mangle.nochange, m.copied + 1⟩ (src - 1) (dst - 1)
              dsimp only
              exact ⟨by omega, by omega⟩

theorem copy_pkt_go_progress (fuel : Nat) (m : MangleState) (src dst : Nat)
    (hf : 0 < fuel) (hs : 0 < src) (hd : 0 < dst) :
    (copy_pkt_go fuel m src dst).2.2.1 + (copy_pkt_go fuel m src dst).2.2.2
      < src + dst := by
  obtain ⟨fuel, rfl⟩ : ∃ f, fuel = f + 1 := ⟨fuel - 1, by omega⟩
  simp only [copy_pkt_go]
  rw [if_neg (by omega : ¬dst = 0)]
  cases hop : m.op with
  | add vid =>
      dsimp only
      by_cases hw : 12 ≤ m.copied ∧ m.copied < 16
      · rw [if_pos hw]
        obtain ⟨h1, h2⟩ :=
          copy_pkt_go_le fuel ⟨Virtio_vlan_mangle.add vid, m.copied + 1⟩ src (dst - 1)
        dsimp only
        omega
      · rw [if_neg hw, if_neg (by omega : ¬src = 0)]
        obtain ⟨h1, h2⟩ :=
          copy_pkt_go_le fuel ⟨Virtio_vlan_mangle.add vid, m.copied + 1⟩ (src - 1) (dst - 1)
        dsimp only
        omega
  | remove =>
      dsimp only
      rw [if_neg (by omega : ¬src = 0)]
      by_cases hw : 12 ≤ m.copied ∧ m.copied < 16
      · rw [if_pos hw]
        obtain ⟨h1, h2⟩ := copy_pkt_go_le fuel ⟨Virtio_vlan_mangle.remove, m.copied + 1⟩ (src - 1) dst
        omega
      · rw [if_neg hw]
        obtain ⟨h1, h2⟩ :=
          copy_pkt_go_le fuel ⟨Virtio_vlan_mangle.remove, m.copied + 1⟩ (src - 1) (dst - 1)
        dsimp only
        omega
  | nochange =>
      dsimp only
      rw [if_neg (by omega : ¬src = 0)]
      obtain ⟨h1, h2⟩ :=
        copy_pkt_go_le fuel ⟨Virtio_vlan_mangle.nochange, m.copied + 1⟩ (src - 1) (dst - 1)
      dsimp only
      omega

theorem copy_pkt_le (m : MangleState) (src dst : Nat) :
    (copy_pkt m src dst).2.2.1 ≤ src ∧ (copy_pkt m src dst).2.2.2 ≤ dst :=
  copy_pkt_go_le _ m src dst

theorem copy_pkt_progress (m : MangleState) (src dst : Nat)
    (hs : 0 < src) (hd : 0 < dst) :
    (copy_pkt m src dst).2.2.1 + (copy_pkt m src dst).2.2.2 < src + dst :=
  copy_pkt_go_progress _ m src dst (by omega) hs hd

theorem measure_copy_le {s : TransferSt} {h : Nat} {b : Bool}
    {s2 : TransferSt} (hh : s.head = some h)
    (hstep : transfer_copy s h b = Sum.inl s2) :
    transfer_measure s2 ≤ transfer_measure s := by
  unfold transfer_copy at hstep
  split at hstep
  · injection hstep with h2
    subst h2
    obtain ⟨h1, h2⟩ := copy_pkt_le s.mangle s.srcCur s.dstCur
    unfold transfer_measure
    dsimp only
    omega
  · injection hstep with h2
    subst h2
    unfold transfer_measure
    dsimp only
    simp [hh]

theorem measure_copy_lt {s : TransferSt} {h : Nat} {s2 : TransferSt}
    (hh : s.head = some h) (hs : 0 < s.srcCur)
    (hstep : transfer_copy s h false = Sum.inl s2) :
    transfer_measure s2 < transfer_measure s := by
  unfold transfer_copy at hstep
  split at hstep
  · rename_i hcond
    have hd : 0 < s.dstCur := by
      rcases hcond with hc | hc
      · omega
      · exact absurd hc (by simp)
    injection hstep with h2
    subst h2
    have hprog := copy_pkt_progress s.mangle s.srcCur s.dstCur hs hd
    unfold transfer_measure
    dsimp only
    omega
  · injection hstep with h2
    subst h2
    unfold transfer_measure
    dsimp only
    simp [hh]

theorem measure_dstnext_le {s : TransferSt} {h : Nat} {s2 : TransferSt}
    (hh : s.head = some h)
    (hstep : transfer_dst_next s h = Sum.inl s2) :
    transfer_measure s2 ≤ transfer_measure s := by
  unfold transfer_dst_next at hstep
  split at hstep
  · exact Sum.noConfusion hstep
  · rename_i n rest heq
    have hle := measure_copy_le (s := { s with dstCur := n, dstRest := rest })
      (by exact hh) hstep
    refine le_trans hle ?_
    unfold transfer_measure
    dsimp only
    rw [heq]
    simp only [List.map_cons, List.sum_cons, descWeight]
    omega
  · exact measure_copy_le hh hstep

theorem measure_dstnext_lt {s : TransferSt} {h : Nat} {s2 : TransferSt}
    (hh : s.head = some h) (hs : 0 < s.srcCur)
    (hstep : transfer_dst_next s h = Sum.inl s2) :
    transfer_measure s2 < transfer_measure s := by
  unfold transfer_dst_next at hstep
  split at hstep
  · exact Sum.noConfusion hstep
  · rename_i n rest heq
    have hle := measure_copy_le (s := { s with dstCur := n, dstRest := rest })
      (by exact hh) hstep
    refine lt_of_le_of_lt hle ?_
    unfold transfer_measure
    dsimp only
    rw [heq]
    simp only [List.map_cons, List.sum_cons, descWeight]
    omega
  · exact measure_copy_lt hh hs hstep

theorem measure_acquire_fresh_lt {s : TransferSt} {ch : Chain} {n0 : Nat}
    (hch : s.chains[s.pos]? = some ch) (hh : s.head = none)
    (hfirst : ch.first = Desc.ok n0) (d0 t0 : Nat) (nm : Nat) (hb : Bool)
    (hd0 : d0 ≤ n0) :
    transfer_measure
      { s with pos := s.pos + 1, head := some s.pos, dstCur := d0
               dstRest := ch.rest, hdrSet := hb, total := t0
               numMerged := nm } < transfer_measure s := by
  obtain ⟨hn, hget⟩ := List.getElem?_eq_some.mp hch
  have hdrop : s.chains.drop s.pos = ch :: s.chains.drop (s.pos + 1) := by
    rw [List.drop_eq_getElem_cons hn, hget]
  unfold transfer_measure
  dsimp only
  rw [hdrop]
  simp [List.map_cons, List.sum_cons, hh, chainWeight, hfirst, descWeight]
  omega

theorem measure_acquire_le {s s2 : TransferSt}
    (hstep : transfer_acquire s = Sum.inl s2) :
    transfer_measure s2 ≤ transfer_measure s := by
  unfold transfer_acquire at hstep
  cases hh : s.head with
  | some h =>
      rw [hh] at hstep
      dsimp only at hstep
      exact measure_dstnext_le hh hstep
  | none =>
      rw [hh] at hstep
      dsimp only at hstep
      split at hstep
      · exact Sum.noConfusion hstep
      · split at hstep
        · exact Sum.noConfusion hstep
        · rename_i ch hch
          split at hstep
          · exact Sum.noConfusion hstep
          · rename_i n0 hfirst
            split at hstep
            · split at hstep
              · exact Sum.noConfusion hstep
              · refine le_of_lt (lt_of_le_of_lt
                  (measure_dstnext_le (by exact rfl) hstep) ?_)
                exact measure_acquire_fresh_lt hch hh hfirst _ _ _ _ (by omega)
            · refine le_of_lt (lt_of_le_of_lt
                (measure_dstnext_le (by exact rfl) hstep) ?_)
              exact measure_acquire_fresh_lt hch hh hfirst _ _ _ _ (by omega)

theorem measure_acquire_lt {s s2 : TransferSt} (hs : 0 < s.srcCur)
    (hstep : transfer_acquire s = Sum.inl s2) :
    transfer_measure s2 < transfer_measure s := by
  unfold transfer_acquire at hstep
  cases hh : s.head with
  | some h =>
      rw [hh] at hstep
      dsimp only at hstep
      exact measure_dstnext_lt hh hs hstep
  | none =>
      rw [hh] at hstep
      dsimp only at hstep
      split at hstep
      · exact Sum.noConfusion hstep
      · split at hstep
        · exact Sum.noConfusion hstep
        · rename_i ch hch
          split at hstep
          · exact Sum.noConfusion hstep
          · rename_i n0 hfirst
            split at hstep
            · split at hstep
              · exact Sum.noConfusion hstep
              · exact lt_of_le_of_lt (measure_dstnext_le (by exact rfl) hstep)
                  (measure_acquire_fresh_lt hch hh hfirst _ _ _ _ (by omega))
            · exact lt_of_le_of_lt (measure_dstnext_le (by exact rfl) hstep)
                (measure_acquire_fresh_lt hch hh hfirst _ _ _ _ (by omega))

theorem measure_step_lt {s s2 : TransferSt}
    (hstep : transfer_step s = Sum.inl s2) :
    transfer_measure s2 < transfer_measure s := by
  unfold transfer_step at hstep
  by_cases hs : s.srcCur = 0
  · rw [if_pos hs] at hstep
    cases hrest : s.srcRest with
    | nil => rw [hrest] at hstep; exact Sum.noConfusion hstep
    | cons d rest =>
        rw [hrest] at hstep
        cases d with
        | bad => exact Sum.noConfusion hstep
        | ok n =>
            have hle := measure_acquire_le hstep
            refine lt_of_le_of_lt hle ?_
            unfold transfer_measure
            dsimp only
            rw [hs, hrest]
            simp only [List.map_cons, List.sum_cons, descWeight]
            omega
  · rw [if_neg hs] at hstep
    exact measure_acquire_lt (by omega) hstep

/-! ### The loop invariant of the transfer -/

/-- Invariant of the transfer loop, relative to the avail cursor `pos0`
of the destination queue at the start of the transfer: heads are handed
out in ring order starting at `pos0`; the merged-chain counter counts the
retired chains plus the current one; the first retired chain is the one
at `pos0`; the header is written iff a chain was ever acquired; and
nothing is ever pulled from a queue that is not ready. -/
def TransferInv (pos0 : Nat) (s : TransferSt) : Prop :=
  s.pos = pos0 + s.consumed.length + (if s.head.isSome then 1 else 0) ∧
  s.numMerged = s.consumed.length + (if s.head.isSome then 1 else 0) ∧
  (s.consumed ≠ [] → (s.consumed.headD (0, 0)).1 = pos0) ∧
  (s.hdrSet = true ↔ 0 < s.numMerged) ∧
  (∀ h, s.head = some h → h = pos0 + s.consumed.length) ∧
  (s.ready = false → s.consumed = [] ∧ s.head = none)

theorem inv_copy {pos0 : Nat} {s : TransferSt} {h : Nat} {b : Bool}
    {s2 : TransferSt} (hinv : TransferInv pos0 s) (hh : s.head = some h)
    (hstep : transfer_copy s h b = Sum.inl s2) : TransferInv pos0 s2 := by
  unfold transfer_copy at hstep
  split at hstep
  · injection hstep with h2
    subst h2
    exact hinv
  · injection hstep with h2
    subst h2
    obtain ⟨i1, i2, i3, i4, i5, i6⟩ := hinv
    refine ⟨?_, ?_, ?_, ?_, ?_, ?_⟩ <;> dsimp only
    · rw [i1, hh]
      rw [show (if (some h : Option Nat).isSome then 1 else 0) = 1 from rfl]
      rw [show (if (none : Option Nat).isSome then 1 else 0) = 0 from rfl]
      rw [List.length_append, List.length_singleton]
      omega
    · rw [i2, hh]
      rw [show (if (some h : Option Nat).isSome then 1 else 0) = 1 from rfl]
      rw [show (if (none : Option Nat).isSome then 1 else 0) = 0 from rfl]
      rw [List.length_append, List.length_singleton]
    · intro _
      cases hc : s.consumed with
      | nil =>
          have h5 := i5 h hh
          rw [hc] at h5
          simp at h5
          simp [h5]
      | cons a t =>
          have h3 := i3 (by rw [hc]; exact List.cons_ne_nil a t)
          rw [hc] at h3
          simpa using h3
    · exact i4
    · intro h2 hh2
      exact Option.noConfusion hh2
    · intro hr
      have h6 := (i6 hr).2
      rw [hh] at h6
      exact Option.noConfusion h6

theorem inv_dstnext {pos0 : Nat} {s : TransferSt} {h : Nat}
    {s2 : TransferSt} (hinv : TransferInv pos0 s) (hh : s.head = some h)
    (hstep : transfer_dst_next s h = Sum.inl s2) : TransferInv pos0 s2 := by
  unfold transfer_dst_next at hstep
  split at hstep
  · exact Sum.noConfusion hstep
  · rename_i n rest heq
    exact inv_copy (s := { s with dstCur := n, dstRest := rest }) hinv hh hstep
  · exact inv_copy hinv hh hstep

theorem inv_acquire_mid {pos0 : Nat} {s : TransferSt}
    (hinv : TransferInv pos0 s) (hh : s.head = none)
    (hready : s.ready = true) (d0 t0 : Nat) (rest : List Desc)
    (hb : Bool) (hhb : hb = true) :
    TransferInv pos0
      { s with pos := s.pos + 1, head := some s.pos, dstCur := d0
               dstRest := rest, hdrSet := hb, total := t0
               numMerged := s.numMerged + 1 } := by
  obtain ⟨i1, i2, i3, i4, i5, i6⟩ := hinv
  refine ⟨?_, ?_, ?_, ?_, ?_, ?_⟩ <;> dsimp only
  · rw [i1, hh]
    simp
  · rw [i2, hh]
    simp
  · exact i3
  · rw [hhb]
    simp
  · intro h2 hh2
    injection hh2 with hh3
    subst hh3
    rw [i1, hh]
    simp
  · intro hr
    rw [hready] at hr
    exact Bool.noConfusion hr

theorem inv_acquire {pos0 : Nat} {s s2 : TransferSt}
    (hinv : TransferInv pos0 s)
    (hstep : transfer_acquire s = Sum.inl s2) : TransferInv pos0 s2 := by
  unfold transfer_acquire at hstep
  cases hh : s.head with
  | some h =>
      rw [hh] at hstep
      dsimp only at hstep
      exact inv_dstnext hinv hh hstep
  | none =>
      rw [hh] at hstep
      dsimp only at hstep
      split at hstep
      · exact Sum.noConfusion hstep
      · rename_i hready
        have hready2 : s.ready = true := by
          cases hr : s.ready
          · exact absurd hr hready
          · rfl
        split at hstep
        · exact Sum.noConfusion hstep
        · rename_i ch hch
          split at hstep
          · exact Sum.noConfusion hstep
          · rename_i n0 hfirst
            split at hstep
            · rename_i hhdr
              split at hstep
              · exact Sum.noConfusion hstep
              · exact inv_dstnext
                  (inv_acquire_mid hinv hh hready2 _ _ _ true rfl) rfl hstep
            · rename_i hhdr
              have hhdr2 : s.hdrSet = true := by
                cases hx : s.hdrSet
                · exact absurd hx hhdr
                · rfl
              exact inv_dstnext
                (inv_acquire_mid hinv hh hready2 _ _ _ s.hdrSet hhdr2) rfl hstep

theorem inv_step {pos0 : Nat} {s s2 : TransferSt}
    (hinv : TransferInv pos0 s)
    (hstep : transfer_step s = Sum.inl s2) : TransferInv pos0 s2 := by
  unfold transfer_step at hstep
  by_cases hs : s.srcCur = 0
  · rw [if_pos hs] at hstep
    cases hrest : s.srcRest with
    | nil =>
        rw [hrest] at hstep
        exact Sum.noConfusion hstep
    | cons d rest =>
        rw [hrest] at hstep
        cases d with
        | bad =>
            dsimp only at hstep
            exact Sum.noConfusion hstep
        | ok n =>
            dsimp only at hstep
            exact inv_acquire (s := { s with srcCur := n, srcRest := rest })
              hinv hstep
  · rw [if_neg hs] at hstep
    exact inv_acquire hinv hstep

/-! ### What each exit of the loop guarantees -/

/-- The postcondition of a finished transfer, relative to the initial
avail cursor `pos0` of the destination queue: Dropped and a source
Bad_descriptor restore the cursor and finish nothing; Delivered finishes
exactly once with `num_buffers` equal to the number of chains pulled
(`pos - pos0`), a single-chain finish carrying `num_buffers = 1`; and
the loop never runs out of fuel. -/
def TransferPost (pos0 : Nat) (o : TransferOut) : Prop :=
  (o.result = TResult.dropped →
    o.pos = pos0 ∧ o.finishes = [] ∧ o.numBuffers = none) ∧
  (o.result = TResult.src_bad → o.pos = pos0 ∧ o.finishes = []) ∧
  (o.result = TResult.delivered →
    o.finishes.length = 1 ∧ o.numBuffers = some (o.pos - pos0) ∧
    pos0 < o.pos ∧
    (∀ ev, o.finishes = [ev] → ev.length = 1 → o.numBuffers = some 1)) ∧
  o.result ≠ TResult.out_of_fuel

theorem out_finalize {pos0 : Nat} {s : TransferSt}
    (hinv : TransferInv pos0 s) : TransferPost pos0 (transfer_finalize s) := by
  obtain ⟨i1, i2, i3, i4, i5, i6⟩ := hinv
  unfold transfer_finalize
  by_cases hhdr : s.hdrSet = false
  · rw [if_pos hhdr]
    have hnm : s.numMerged = 0 := by
      by_contra hc
      have h4 := i4.mpr (Nat.pos_of_ne_zero hc)
      rw [h4] at hhdr
      exact Bool.noConfusion hhdr
    have hhnone : s.head = none := by
      cases hh : s.head
      · rfl
      · rw [hh] at i2
        simp at i2
        omega
    have hlen0 : s.consumed.length = 0 := by
      rw [hhnone] at i2
      simp at i2
      omega
    refine ⟨fun _ => ⟨?_, rfl, rfl⟩, fun hres => ?_, fun hres => ?_, by simp⟩
    · rw [i1, hhnone, hlen0]
      simp
    · simp at hres
    · simp at hres
  · rw [if_neg hhdr]
    have hhdr2 : s.hdrSet = true := by
      cases hx : s.hdrSet
      · exact absurd hx hhdr
      · rfl
    have hnm : 0 < s.numMerged := i4.mp hhdr2
    by_cases hcons : s.consumed = []
    · rw [if_pos hcons]
      have hbit : (if s.head.isSome then 1 else 0) = 1 := by
        cases hh : s.head
        · rw [hh, hcons] at i2
          simp at i2
          omega
        · simp
      have hp : s.pos = pos0 + 1 := by
        rw [i1, hcons, hbit]
        simp
      refine ⟨fun hres => ?_, fun hres => ?_, fun _ => ⟨rfl, ?_, ?_, ?_⟩, by simp⟩
      · simp at hres
      · simp at hres
      · dsimp only
        rw [hp]
        simp
      · dsimp only
        omega
      · intro ev _ _
        rfl
    · rw [if_neg hcons]
      have hlen1 : 0 < s.consumed.length := List.length_pos.mpr hcons
      have hmerg : s.numMerged = s.pos - pos0 := by
        rw [i1, i2]
        cases hh : s.head <;> simp [hh] <;> omega
      refine ⟨fun hres => ?_, fun hres => ?_, fun _ => ⟨rfl, ?_, ?_, ?_⟩, by simp⟩
      · simp at hres
      · simp at hres
      · dsimp only
        rw [hmerg]
      · dsimp only
        rw [i1]
        omega
      · intro ev hev hlen
        exfalso
        have hev2 : (s.consumed.map (fun e => (some e.1, e.2))) ++ [(s.head, s.total)]
            = ev := by
          injection hev
        rw [← hev2, List.length_append, List.length_map,
          List.length_singleton] at hlen
        omega

theorem out_src_bad {pos0 : Nat} {s : TransferSt}
    (hinv : TransferInv pos0 s) : TransferPost pos0 (transfer_src_bad s) := by
  obtain ⟨i1, i2, i3, i4, i5, i6⟩ := hinv
  unfold transfer_src_bad
  refine ⟨fun hres => ?_, fun _ => ⟨?_, rfl⟩, fun hres => ?_, by simp⟩
  · simp at hres
  · dsimp only
    by_cases hcons : s.consumed = []
    · rw [if_neg (by simp [hcons])]
      cases hh : s.head with
      | some h =>
          have := i5 h hh
          rw [hcons] at this
          simpa using this
      | none =>
          rw [i1, hcons, hh]
          simp
    · rw [if_pos (by simpa using hcons)]
      exact i3 hcons
  · simp at hres

theorem post_exception {pos0 : Nat} {p : Nat} {e : Bool} :
    TransferPost pos0
      { result := TResult.exception, pos := p, finishes := []
        numBuffers := none, dstError := e } := by
  refine ⟨fun hres => ?_, fun hres => ?_, fun hres => ?_, by simp⟩ <;> simp at hres

theorem post_hdr_too_small {pos0 : Nat} {p : Nat} :
    TransferPost pos0
      { result := TResult.hdr_too_small, pos := p, finishes := []
        numBuffers := none, dstError := false } := by
  refine ⟨fun hres => ?_, fun hres => ?_, fun hres => ?_, by simp⟩ <;> simp at hres

theorem out_acquire {pos0 : Nat} {s : TransferSt} {o : TransferOut}
    (hinv : TransferInv pos0 s)
    (hstep : transfer_acquire s = Sum.inr o) : TransferPost pos0 o := by
  obtain ⟨i1, i2, i3, i4, i5, i6⟩ := hinv
  unfold transfer_acquire at hstep
  cases hh : s.head with
  | some h =>
      rw [hh] at hstep
      dsimp only at hstep
      unfold transfer_dst_next at hstep
      split at hstep
      · injection hstep with h2
        subst h2
        exact post_exception
      · unfold transfer_copy at hstep
        split at hstep <;> exact Sum.noConfusion hstep
      · unfold transfer_copy at hstep
        split at hstep <;> exact Sum.noConfusion hstep
  | none =>
      rw [hh] at hstep
      dsimp only at hstep
      split at hstep
      · rename_i hready
        injection hstep with h2
        subst h2
        obtain ⟨hc0, hh0⟩ := i6 hready
        refine ⟨fun _ => ⟨?_, rfl, rfl⟩, fun hres => ?_, fun hres => ?_, by simp⟩
        · dsimp only
          rw [i1, hc0, hh0]
          simp
        · simp at hres
        · simp at hres
      · split at hstep
        · injection hstep with h2
          subst h2
          refine ⟨fun _ => ⟨?_, rfl, rfl⟩, fun hres => ?_, fun hres => ?_, by simp⟩
          · dsimp only
            by_cases hcons : s.consumed = []
            · rw [if_neg (by simp [hcons])]
              rw [i1, hcons, hh]
              simp
            · rw [if_pos (by simpa using hcons)]
              exact i3 hcons
          · simp at hres
          · simp at hres
        · split at hstep
          · injection hstep with h2
            subst h2
            exact post_exception
          · split at hstep
            · split at hstep
              · injection hstep with h2
                subst h2
                exact post_hdr_too_small
              · unfold transfer_dst_next at hstep
                split at hstep
                · injection hstep with h2
                  subst h2
                  exact post_exception
                · unfold transfer_copy at hstep
                  split at hstep <;> exact Sum.noConfusion hstep
                · unfold transfer_copy at hstep
                  split at hstep <;> exact Sum.noConfusion hstep
            · unfold transfer_dst_next at hstep
              split at hstep
              · injection hstep with h2
                subst h2
                exact post_exception
              · unfold transfer_copy at hstep
                split at hstep <;> exact Sum.noConfusion hstep
              · unfold transfer_copy at hstep
                split at hstep <;> exact Sum.noConfusion hstep

theorem out_step {pos0 : Nat} {s : TransferSt} {o : TransferOut}
    (hinv : TransferInv pos0 s)
    (hstep : transfer_step s = Sum.inr o) : TransferPost pos0 o := by
  unfold transfer_step at hstep
  by_cases hs : s.srcCur = 0
  · rw [if_pos hs] at hstep
    cases hrest : s.srcRest with
    | nil =>
        rw [hrest] at hstep
        injection hstep with h2
        subst h2
        exact out_finalize hinv
    | cons d rest =>
        rw [hrest] at hstep
        cases d with
        | bad =>
            dsimp only at hstep
            injection hstep with h2
            subst h2
            exact out_src_bad hinv
        | ok n =>
            dsimp only at hstep
            exact out_acquire (s := { s with srcCur := n, srcRest := rest })
              hinv hstep
  · rw [if_neg hs] at hstep
    exact out_acquire hinv hstep

theorem transfer_run_post (pos0 : Nat) : ∀ (fuel : Nat) (s : TransferSt),
    transfer_measure s < fuel → TransferInv pos0 s →
    TransferPost pos0 (transfer_run fuel s) := by
  intro fuel
  induction fuel with
  | zero =>
      intro s hm
      omega
  | succ fuel ih =>
      intro s hm hinv
      simp only [transfer_run]
      cases hstep : transfer_step s with
      | inr o =>
          exact out_step hinv hstep
      | inl s2 =>
          have hlt := measure_step_lt hstep
          exact ih s2 (by omega) (inv_step hinv hstep)

/-- The transfer satisfies its postcondition relative to the queue's
initial avail cursor. -/
theorem transfer_post (srcCur : Nat) (srcRest : List Desc) (q : DstQueue)
    (m : Virtio_vlan_mangle) :
    TransferPost q.pos (Virtio_net_transfer.transfer srcCur srcRest q m) := by
  apply transfer_run_post
  · exact Nat.lt_succ_self _
  · refine ⟨by simp, by simp, ?_, by simp, ?_, ?_⟩
    · intro hc
      exact absurd rfl hc
    · intro h2 hh2
      exact Option.noConfusion hh2
    · intro _
      exact ⟨rfl, rfl⟩

/-- C3: a transfer that completes as Delivered invokes `finish` on the
destination queue exactly once, writing into `num_buffers` the number of
destination chains pulled for the frame (the advance of the avail
cursor); a single-chain finish (empty merged list) carries
`num_buffers = 1`. -/
theorem C3_delivered_num_buffers (srcCur : Nat) (srcRest : List Desc)
    (q : DstQueue) (m : Virtio_vlan_mangle)
    (hres : (Virtio_net_transfer.transfer srcCur srcRest q m).result =
      TResult.delivered) :
    (Virtio_net_transfer.transfer srcCur srcRest q m).finishes.length = 1 ∧
    (Virtio_net_transfer.transfer srcCur srcRest q m).numBuffers =
      some ((Virtio_net_transfer.transfer srcCur srcRest q m).pos - q.pos) ∧
    q.pos < (Virtio_net_transfer.transfer srcCur srcRest q m).pos ∧
    (∀ ev, (Virtio_net_transfer.transfer srcCur srcRest q m).finishes = [ev] →
      ev.length = 1 →
      (Virtio_net_transfer.transfer srcCur srcRest q m).numBuffers = some 1) :=
  (transfer_post srcCur srcRest q m).2.2.1 hres

/-- A one-chain destination queue for the C3 witness. -/
def c3q : DstQueue :=
  { ready := true, chains := [{ first := Desc.ok 100, rest := [] }], pos := 0 }

theorem C3_delivered_num_buffers_witness :
    (Virtio_net_transfer.transfer 20 [] c3q
        Virtio_vlan_mangle.nochange).finishes.length = 1 ∧
    (Virtio_net_transfer.transfer 20 [] c3q
        Virtio_vlan_mangle.nochange).numBuffers =
      some ((Virtio_net_transfer.transfer 20 [] c3q
        Virtio_vlan_mangle.nochange).pos - c3q.pos) := by
  have h := C3_delivered_num_buffers 20 [] c3q Virtio_vlan_mangle.nochange
    (by decide)
  exact ⟨h.1, h.2.1⟩

/-- C4: a transfer that cannot proceed because the destination ring is
not ready, or because no destination head is available, returns Dropped;
and every Dropped return leaves the destination queue's avail cursor at
its pre-transfer position with no `finish` observed (no partial frame). -/
theorem C4_dropped_rewinds (srcCur : Nat) (srcRest : List Desc)
    (q : DstQueue) (m : Virtio_vlan_mangle) :
    (q.ready = false → 0 < srcCur →
      (Virtio_net_transfer.transfer srcCur srcRest q m).result =
        TResult.dropped) ∧
    (q.ready = true → q.chains.length ≤ q.pos → 0 < srcCur →
      (Virtio_net_transfer.transfer srcCur srcRest q m).result =
        TResult.dropped) ∧
    ((Virtio_net_transfer.transfer srcCur srcRest q m).result =
        TResult.dropped →
      (Virtio_net_transfer.transfer srcCur srcRest q m).pos = q.pos ∧
      (Virtio_net_transfer.transfer srcCur srcRest q m).finishes = [] ∧
      (Virtio_net_transfer.transfer srcCur srcRest q m).numBuffers = none) := by
  refine ⟨?_, ?_, (transfer_post srcCur srcRest q m).1⟩
  · intro h1 h2
    unfold Virtio_net_transfer.transfer
    simp only [transfer_run]
    unfold transfer_step
    dsimp only
    rw [if_neg (by omega : ¬srcCur = 0)]
    unfold transfer_acquire
    dsimp only
    rw [if_pos h1]
  · intro h1 h2 h3
    have hnone : q.chains[q.pos]? = none := List.getElem?_eq_none h2
    unfold Virtio_net_transfer.transfer
    simp only [transfer_run]
    unfold transfer_step
    dsimp only
    rw [if_neg (by omega : ¬srcCur = 0)]
    unfold transfer_acquire
    dsimp only
    rw [h1, if_neg (by simp), hnone]

/-- A never-ready destination queue for the C4 witness. -/
def c4q : DstQueue := { ready := false, chains := [], pos := 5 }

theorem C4_dropped_rewinds_witness :
    (Virtio_net_transfer.transfer 5 [] c4q
        Virtio_vlan_mangle.nochange).result = TResult.dropped ∧
    (Virtio_net_transfer.transfer 5 [] c4q
        Virtio_vlan_mangle.nochange).pos = c4q.pos := by
  have h := C4_dropped_rewinds 5 [] c4q Virtio_vlan_mangle.nochange
  have h1 := h.1 (by decide) (by decide)
  exact ⟨h1, (h.2.2 h1).1⟩
